import Mathlib

/-!
Verification of the joi-moment plugin (meanie/joi-moment).

The repository ships two near-duplicate variants of the same Joi extension:
`src/index.js` and `src/unnamed/part_000`.  Both define a `moment` schema type
with a `coerce` stage (parse, timezone, start/end-of-period rounding, min/max
clamping), a `validate` stage (`date.iso` error for invalid timestamps), and
four comparison rules (`isBefore`, `isAfter`, `isSameOrBefore`,
`isSameOrAfter`).

The plugin delegates all calendar arithmetic to the external `moment-timezone`
library.  That library is embedded here as an executable model over civil
(Gregorian) calendar fields: a timestamp is a civil date (year, month, day),
a millisecond-of-day, a UTC offset in minutes (standing in for the IANA
timezone of the real library, whose DST transitions are out of scope), and a
validity flag.  `startOf`/`endOf` truncate civil fields exactly as moment
does; precision comparisons follow moment's implementation (`isBefore` at a
unit compares the instant of `endOf(unit)`; `isAfter` uses `startOf(unit)`;
`isSame` brackets the other instant between the two; invalid operands make
every comparison false).  The instant of a timestamp is its epoch-millisecond
value (`valueOf()` in moment), computed through a day-number function for the
proleptic Gregorian calendar.

Definitions prefixed `ij` embed `src/index.js`; definitions prefixed `p0`
embed `src/unnamed/part_000`; unprefixed stage definitions embed code that is
identical in both files.
-/

/-- Calendar units accepted by the plugin for rounding and comparison
precision (moment normalizes plural aliases such as "milliseconds" to these
canonical units). -/
inductive CalUnit
  | year
  | quarter
  | month
  | week
  | day
  | hour
  | minute
  | second
  | millisecond
deriving DecidableEq

/-- Model of a moment-timezone timestamp: civil calendar fields as displayed
in the timestamp's current zone, the zone's UTC offset in minutes, and the
validity flag (`isValid()`). -/
structure Mom where
  y : Int
  m : Int
  d : Int
  msd : Int
  off : Int
  valid : Bool
deriving DecidableEq

/-- Gregorian leap-year predicate. -/
def isLeap (y : Int) : Bool :=
  (decide (y % 4 = 0) && decide (y % 100 ≠ 0)) || decide (y % 400 = 0)

/-- Number of days in a civil month. -/
def dim (y m : Int) : Int :=
  if m = 2 then (if isLeap y then 29 else 28)
  else if m = 4 ∨ m = 6 ∨ m = 9 ∨ m = 11 then 30
  else 31

/-- Days since the epoch 1970-01-01 of a civil date (Gregorian calendar,
Hinnant's algorithm, shifted years starting in March). -/
def daysFromCivil (y m d : Int) : Int :=
  let yy := if m ≤ 2 then y - 1 else y
  let era := yy / 400
  let yoe := yy - era * 400
  let mp := if m ≤ 2 then m + 9 else m - 3
  let doy := (153 * mp + 2) / 5 + d - 1
  let doe := yoe * 365 + yoe / 4 - yoe / 100 + doy
  era * 146097 + doe - 719468

/-- Epoch day number of a timestamp's civil date. -/
def dayNum (t : Mom) : Int :=
  daysFromCivil t.y t.m t.d

/-- Day of the week of a timestamp's civil date (0 = Sunday, moment's default
locale week start; the epoch day 1970-01-01 was a Thursday). -/
def dow (t : Mom) : Int :=
  (dayNum t + 4) % 7

/-- Epoch-millisecond instant of a timestamp (moment's `valueOf()`): civil
time minus the zone offset. -/
def instant (t : Mom) : Int :=
  dayNum t * 86400000 + t.msd - t.off * 60000

/-- Well-formedness of the civil fields: month and day in range, and the
millisecond-of-day within a single day. -/
def CivWF (t : Mom) : Prop :=
  1 ≤ t.m ∧ t.m ≤ 12 ∧ 1 ≤ t.d ∧ t.d ≤ dim t.y t.m ∧ 0 ≤ t.msd ∧ t.msd ≤ 86399999

instance (t : Mom) : Decidable (CivWF t) := by
  unfold CivWF; infer_instance

/-- Civil-date predecessor (same time of day). -/
def prevDayCiv (t : Mom) : Mom :=
  if 1 < t.d then {t with d := t.d - 1}
  else if 1 < t.m then {t with m := t.m - 1, d := dim t.y (t.m - 1)}
  else {t with y := t.y - 1, m := 12, d := 31}

/-- Civil-date successor (same time of day). -/
def nextDayCiv (t : Mom) : Mom :=
  if t.d < dim t.y t.m then {t with d := t.d + 1}
  else if t.m < 12 then {t with m := t.m + 1, d := 1}
  else {t with y := t.y + 1, m := 1, d := 1}

/-- Iterated civil-date predecessor. -/
def prevDays : Nat → Mom → Mom
  | 0, t => t
  | n + 1, t => prevDayCiv (prevDays n t)

/-- Iterated civil-date successor. -/
def nextDays : Nat → Mom → Mom
  | 0, t => t
  | n + 1, t => nextDayCiv (nextDays n t)

/-- Shift the civil date of a timestamp by a signed number of days. -/
def shiftDays (k : Int) (t : Mom) : Mom :=
  if 0 ≤ k then nextDays k.toNat t else prevDays (-k).toNat t

/-- First month of the quarter containing month `m`. -/
def qstart (m : Int) : Int :=
  3 * ((m - 1) / 3) + 1

/-- Model of moment's `startOf(unit)`: truncate the timestamp down to the
first instant of the unit containing it, in civil time of its current zone
(weeks start on Sunday in moment's default locale). -/
def startOfU : CalUnit → Mom → Mom
  | .year, t => {t with m := 1, d := 1, msd := 0}
  | .quarter, t => {t with m := qstart t.m, d := 1, msd := 0}
  | .month, t => {t with d := 1, msd := 0}
  | .week, t => {prevDays (dow t).toNat t with msd := 0}
  | .day, t => {t with msd := 0}
  | .hour, t => {t with msd := t.msd - t.msd % 3600000}
  | .minute, t => {t with msd := t.msd - t.msd % 60000}
  | .second, t => {t with msd := t.msd - t.msd % 1000}
  | .millisecond, t => t

/-- Model of moment's `endOf(unit)`: move the timestamp up to the last
millisecond of the unit containing it. -/
def endOfU : CalUnit → Mom → Mom
  | .year, t => {t with m := 12, d := 31, msd := 86399999}
  | .quarter, t =>
      {t with m := qstart t.m + 2, d := dim t.y (qstart t.m + 2), msd := 86399999}
  | .month, t => {t with d := dim t.y t.m, msd := 86399999}
  | .week, t => {nextDays 6 (prevDays (dow t).toNat t) with msd := 86399999}
  | .day, t => {t with msd := 86399999}
  | .hour, t => {t with msd := t.msd - t.msd % 3600000 + 3599999}
  | .minute, t => {t with msd := t.msd - t.msd % 60000 + 59999}
  | .second, t => {t with msd := t.msd - t.msd % 1000 + 999}
  | .millisecond, t => t

/-- Model of moment-timezone's `tz(zone)`: reassign the display zone (here
its UTC offset in minutes), keeping the underlying instant and re-deriving
the civil projection. -/
def setTz (z : Int) (t : Mom) : Mom :=
  let total := t.msd + (z - t.off) * 60000
  {shiftDays (total / 86400000) t with msd := total % 86400000, off := z}

/-- Model of moment's `isBefore(other, unit)`: false if either operand is
invalid; at millisecond precision compare instants, otherwise compare the
instant of `endOf(unit)` of the left operand. -/
def momIsBefore (a b : Mom) (p : CalUnit) : Bool :=
  a.valid && b.valid &&
    (match p with
     | .millisecond => decide (instant a < instant b)
     | _ => decide (instant (endOfU p a) < instant b))

/-- Model of moment's `isAfter(other, unit)`. -/
def momIsAfter (a b : Mom) (p : CalUnit) : Bool :=
  a.valid && b.valid &&
    (match p with
     | .millisecond => decide (instant b < instant a)
     | _ => decide (instant b < instant (startOfU p a)))

/-- Model of moment's `isSame(other, unit)`: at coarser precision the other
instant must fall between `startOf(unit)` and `endOf(unit)` of the left
operand. -/
def momIsSame (a b : Mom) (p : CalUnit) : Bool :=
  a.valid && b.valid &&
    (match p with
     | .millisecond => decide (instant a = instant b)
     | _ =>
         decide (instant (startOfU p a) ≤ instant b) &&
           decide (instant b ≤ instant (endOfU p a)))

/-- Model of moment's `isSameOrBefore(other, unit)`. -/
def momIsSameOrBefore (a b : Mom) (p : CalUnit) : Bool :=
  momIsSame a b p || momIsBefore a b p

/-- Model of moment's `isSameOrAfter(other, unit)`. -/
def momIsSameOrAfter (a b : Mom) (p : CalUnit) : Bool :=
  momIsSame a b p || momIsAfter a b p
/-- JS string values are modelled as lists of characters (the plugin treats
the empty string as falsy). -/
abbrev JsStr := List Char

/-- Decimal digit test for the parser model. -/
def isDigitCh (c : Char) : Bool :=
  decide ('0' ≤ c) && decide (c ≤ '9')

/-- Read a non-empty all-digit character group as a number. -/
def digitsToNat (l : List Char) : Option Nat :=
  if l = [] then none
  else if l.all isDigitCh then
    some (l.foldl (fun a c => 10 * a + (c.toNat - 48)) 0)
  else none

/-- Split a character list on the dash separator. -/
def splitDash : List Char → List (List Char)
  | [] => [[]]
  | c :: cs =>
      if c = '-' then [] :: splitDash cs
      else
        match splitDash cs with
        | [] => [[c]]
        | g :: gs => (c :: g) :: gs

/-- An invalid timestamp (`isValid()` false), as produced by a failed parse. -/
def invalidMom : Mom :=
  ⟨1970, 1, 1, 0, 0, false⟩

/-- Modelled from the spec: the plugin delegates ISO-8601 parsing to the
external `moment(value, moment.ISO_8601)` call ("attempt to interpret
`input` as an ISO-8601 date/time string"; "Parsing failure yields an
Invalid timestamp (valid flag = false)").  This model covers calendar-date
strings of shape YYYY-MM-DD, read in UTC (offset 0) as moment does for
date-only ISO strings; any other string yields an invalid timestamp. -/
def parseISOdate (s : JsStr) : Mom :=
  match (splitDash s).map digitsToNat with
  | [some yv, some mv, some dv] =>
      if 1 ≤ (mv : Int) ∧ (mv : Int) ≤ 12 ∧ 1 ≤ (dv : Int) ∧
          (dv : Int) ≤ dim (yv : Int) (mv : Int) then
        ⟨(yv : Int), (mv : Int), (dv : Int), 0, 0, true⟩
      else invalidMom
  | _ => invalidMom

/-- The values the coerce stage can receive: absent (null or undefined), a
string, or an already constructed moment object. -/
inductive Value
  | absent
  | str (s : JsStr)
  | mom (t : Mom)
deriving DecidableEq

/-- JS truthiness of the incoming value (`if (!value) return;`): null,
undefined and the empty string are falsy; moment objects are always truthy. -/
def truthy : Value → Bool
  | .absent => false
  | .str s => decide (s ≠ [])
  | .mom _ => true

/-- Conversion step of coerce: a string is parsed with
`moment(value, moment.ISO_8601)`; a value that is already a moment object
keeps its value (`index.js` re-wraps it, which clones without changing the
value; `part_000` skips the wrap behind `moment.isMoment`).  The absent case
is unreachable behind the truthiness guard. -/
def toMomentWrap (parse : JsStr → Mom) : Value → Mom
  | .absent => invalidMom
  | .str s => parse s
  | .mom t => t

/-- A min or max date flag: a literal timestamp or a Joi reference token. -/
inductive FlagDate
  | lit (t : Mom)
  | ref (r : Nat)
deriving DecidableEq

/-- Ambient validation context supplied by the host framework: an optional
default timezone (`prefs.context.timezone`) and the reference resolver. -/
structure Ctx where
  timezone : Option Int
  refs : Nat → Option Mom

/-- Reference resolution in `part_000` coerce (`if (Joi.isRef(minDate))
minDate = minDate.resolve(value, state, prefs)`): a literal flag is used
directly; a reference may resolve to nothing, which the following truthiness
test treats as no bound. -/
def resolveFlag (ctx : Ctx) : Option FlagDate → Option Mom
  | none => none
  | some (.lit t) => some t
  | some (.ref r) => ctx.refs r

/-- Per-field configuration flags of `src/unnamed/part_000`. -/
structure P0Config where
  tz : Option Int
  startOf : Option CalUnit
  endOf : Option CalUnit
  minDate : Option FlagDate
  maxDate : Option FlagDate

/-- Per-field configuration flags of `src/index.js` (its min and max flags
are used without reference resolution). -/
structure IJConfig where
  tz : Option Int
  startOf : Option CalUnit
  endOf : Option CalUnit
  min : Option Mom
  max : Option Mom

/-- Timezone step of `part_000` coerce (lines 52-58): an explicit tz flag
wins; otherwise the context default timezone is applied; otherwise the value
is untouched. -/
def tzStageP0 (cfg : P0Config) (ctx : Ctx) (t : Mom) : Mom :=
  match cfg.tz with
  | some z => setTz z t
  | none =>
      match ctx.timezone with
      | some z => setTz z t
      | none => t

/-- Timezone step of `index.js` coerce (lines 42-45): only an explicit tz
flag is applied; there is no context fallback. -/
def tzStageIJ (cfg : IJConfig) (t : Mom) : Mom :=
  match cfg.tz with
  | some z => setTz z t
  | none => t

/-- Rounding step (identical in both files): `startOf` is applied first when
set, then `endOf` when set. -/
def roundStage (so eo : Option CalUnit) (t : Mom) : Mom :=
  let t1 := match so with
    | some u => startOfU u t
    | none => t
  match eo with
  | some u => endOfU u t1
  | none => t1

/-- Clamping step (identical in both files): `if (min && value.isBefore(min))
value = min; if (max && value.isAfter(max)) value = max;` with moment's
default millisecond precision; the max test sees the min-clamped value. -/
def clampStage (mn mx : Option Mom) (t : Mom) : Mom :=
  let t1 := match mn with
    | some m0 => if momIsBefore t m0 .millisecond then m0 else t
    | none => t
  match mx with
  | some m1 => if momIsAfter t1 m1 .millisecond then m1 else t1
  | none => t1

/-- Embedding of coerce from `src/unnamed/part_000` (lines 20-78).
Returning none models the bare `return;` (Joi then keeps the incoming value
unchanged); returning some models `return {value}`. -/
def p0Coerce (parse : JsStr → Mom) (cfg : P0Config) (ctx : Ctx) (v : Value) :
    Option Mom :=
  if truthy v = false then none
  else
    let t := toMomentWrap parse v
    if t.valid = false then none
    else
      let minR := resolveFlag ctx cfg.minDate
      let maxR := resolveFlag ctx cfg.maxDate
      some (clampStage minR maxR (roundStage cfg.startOf cfg.endOf (tzStageP0 cfg ctx t)))

/-- Embedding of coerce from `src/index.js` (lines 20-69); it reads no
ambient context: no reference resolution and no default-timezone fallback. -/
def ijCoerce (parse : JsStr → Mom) (cfg : IJConfig) (_ctx : Ctx) (v : Value) :
    Option Mom :=
  if truthy v = false then none
  else
    let t := toMomentWrap parse v
    if t.valid = false then none
    else
      some (clampStage cfg.min cfg.max (roundStage cfg.startOf cfg.endOf (tzStageIJ cfg t)))

/-- Result of the validate stage: success (Joi keeps the value), a single
`date.iso` error returned alongside the value (`return {value, errors}` with
`errors = helpers.error('date.iso')`), or a thrown TypeError (a non-empty
JS string has no `isValid` method). -/
inductive VRes
  | pass (v : Value)
  | errDateISO (v : Value)
  | crash
deriving DecidableEq

/-- Embedding of validate (identical in `src/index.js` lines 70-82 and
`src/unnamed/part_000` lines 79-91): falsy values pass through; an invalid
moment object yields exactly one error of kind `date.iso`; the `isValid`
call on a non-empty string value throws. -/
def validateStage (v : Value) : VRes :=
  if truthy v = false then .pass v
  else
    match v with
    | .mom t => if t.valid = false then .errDateISO v else .pass v
    | .str _ => .crash
    | .absent => .pass v

/-- The four comparison rule kinds; Joi dispatches a registered rule to the
validate function registered under the same name. -/
inductive RuleKind
  | isBefore
  | isAfter
  | isSameOrBefore
  | isSameOrAfter
deriving DecidableEq

/-- The `date` argument of a comparison rule: a literal string or a moment
object (reference arguments are resolved by Joi before the rule runs, so an
unresolved reference arrives as an unset argument). -/
inductive DateArg
  | str (s : JsStr)
  | mom (t : Mom)
deriving DecidableEq

/-- Arguments captured by a rule registration. -/
structure RuleArgs where
  date : Option DateArg
  precision : Option CalUnit
deriving DecidableEq

/-- A registered rule: the dispatch name and the captured arguments. -/
structure AddedRule where
  name : RuleKind
  args : RuleArgs
deriving DecidableEq

/-- Interpolation data carried by a comparison error (`helpers.error(kind,
{date, precision})`): the possibly parsed date variable (unset stays
undefined) and the effective precision. -/
structure ErrData where
  date : Option Mom
  precision : CalUnit
deriving DecidableEq

/-- Result of evaluating one comparison rule. -/
inductive RuleRes
  | pass (v : Value)
  | err (kind : RuleKind) (data : ErrData)
deriving DecidableEq

/-- Default precision (`if (!precision) precision = 'milliseconds'`). -/
def precDefault (p : Option CalUnit) : CalUnit :=
  p.getD .millisecond

/-- JS truthiness of the rule's date argument (`if (!date)` in `part_000`):
unset and the empty string are falsy. -/
def dateTruthy : Option DateArg → Bool
  | none => false
  | some (.str s) => decide (s ≠ [])
  | some (.mom _) => true

/-- Resolution of a present date argument (`if (typeof date === 'string')
date = moment(date, moment.ISO_8601)`). -/
def resolveDateArg (parse : JsStr → Mom) : DateArg → Mom
  | .str s => parse s
  | .mom t => t

/-- Date used in the comparison by the `index.js` rules: with the argument
unset it stays undefined and `value.isBefore(undefined, p)` makes moment
compare against the current time. -/
def resolveDateIJ (parse : JsStr → Mom) (now : Mom) : Option DateArg → Mom
  | some a => resolveDateArg parse a
  | none => now

/-- Date carried in the error data: the date variable after the possible
parse (unset stays undefined). -/
def errDate (parse : JsStr → Mom) : Option DateArg → Option Mom
  | some a => some (resolveDateArg parse a)
  | none => none

/-- Embedding of `isBefore.validate` from `src/index.js` (lines 129-141).
There is no absent-date guard: an unset date reaches the moment comparison
as undefined, which moment reads as the current time `now`.  A value that is
not a moment object passes. -/
def ijIsBeforeValidate (parse : JsStr → Mom) (now : Mom) (args : RuleArgs)
    (v : Value) : RuleRes :=
  let p := precDefault args.precision
  match v with
  | .mom t =>
      if momIsBefore t (resolveDateIJ parse now args.date) p then .pass v
      else .err .isBefore ⟨errDate parse args.date, p⟩
  | _ => .pass v

/-- Embedding of `isAfter.validate` from `src/index.js` (lines 163-175). -/
def ijIsAfterValidate (parse : JsStr → Mom) (now : Mom) (args : RuleArgs)
    (v : Value) : RuleRes :=
  let p := precDefault args.precision
  match v with
  | .mom t =>
      if momIsAfter t (resolveDateIJ parse now args.date) p then .pass v
      else .err .isAfter ⟨errDate parse args.date, p⟩
  | _ => .pass v

/-- Embedding of `isSameOrBefore.validate` from `src/index.js`
(lines 197-209); note that the `isSameOrBefore` method never registers a
rule under this name, so this function is unreachable there. -/
def ijIsSameOrBeforeValidate (parse : JsStr → Mom) (now : Mom)
    (args : RuleArgs) (v : Value) : RuleRes :=
  let p := precDefault args.precision
  match v with
  | .mom t =>
      if momIsSameOrBefore t (resolveDateIJ parse now args.date) p then .pass v
      else .err .isSameOrBefore ⟨errDate parse args.date, p⟩
  | _ => .pass v

/-- Embedding of `isSameOrAfter.validate` from `src/index.js`
(lines 231-243); unreachable for the same reason as `isSameOrBefore`. -/
def ijIsSameOrAfterValidate (parse : JsStr → Mom) (now : Mom)
    (args : RuleArgs) (v : Value) : RuleRes :=
  let p := precDefault args.precision
  match v with
  | .mom t =>
      if momIsSameOrAfter t (resolveDateIJ parse now args.date) p then .pass v
      else .err .isSameOrAfter ⟨errDate parse args.date, p⟩
  | _ => .pass v

/-- Embedding of `isBefore.validate` from `src/unnamed/part_000`
(lines 150-165): a falsy date argument makes the rule pass vacuously. -/
def p0IsBeforeValidate (parse : JsStr → Mom) (args : RuleArgs) (v : Value) :
    RuleRes :=
  if dateTruthy args.date = false then .pass v
  else
    let p := precDefault args.precision
    match v, args.date with
    | .mom t, some a =>
        if momIsBefore t (resolveDateArg parse a) p then .pass v
        else .err .isBefore ⟨some (resolveDateArg parse a), p⟩
    | _, _ => .pass v

/-- Embedding of `isAfter.validate` from `src/unnamed/part_000`
(lines 189-204). -/
def p0IsAfterValidate (parse : JsStr → Mom) (args : RuleArgs) (v : Value) :
    RuleRes :=
  if dateTruthy args.date = false then .pass v
  else
    let p := precDefault args.precision
    match v, args.date with
    | .mom t, some a =>
        if momIsAfter t (resolveDateArg parse a) p then .pass v
        else .err .isAfter ⟨some (resolveDateArg parse a), p⟩
    | _, _ => .pass v

/-- Embedding of `isSameOrBefore.validate` from `src/unnamed/part_000`
(lines 228-243). -/
def p0IsSameOrBeforeValidate (parse : JsStr → Mom) (args : RuleArgs)
    (v : Value) : RuleRes :=
  if dateTruthy args.date = false then .pass v
  else
    let p := precDefault args.precision
    match v, args.date with
    | .mom t, some a =>
        if momIsSameOrBefore t (resolveDateArg parse a) p then .pass v
        else .err .isSameOrBefore ⟨some (resolveDateArg parse a), p⟩
    | _, _ => .pass v

/-- Embedding of `isSameOrAfter.validate` from `src/unnamed/part_000`
(lines 267-282). -/
def p0IsSameOrAfterValidate (parse : JsStr → Mom) (args : RuleArgs)
    (v : Value) : RuleRes :=
  if dateTruthy args.date = false then .pass v
  else
    let p := precDefault args.precision
    match v, args.date with
    | .mom t, some a =>
        if momIsSameOrAfter t (resolveDateArg parse a) p then .pass v
        else .err .isSameOrAfter ⟨some (resolveDateArg parse a), p⟩
    | _, _ => .pass v

/-- Rule registration of the `isBefore` method in `src/index.js`
(lines 110-115): `$_addRule({name: 'isBefore', args: {date, precision}})`. -/
def ijIsBeforeMethod (date : Option DateArg) (precision : Option CalUnit) :
    AddedRule :=
  ⟨.isBefore, ⟨date, precision⟩⟩

/-- Rule registration of the `isAfter` method in `src/index.js`
(lines 144-149). -/
def ijIsAfterMethod (date : Option DateArg) (precision : Option CalUnit) :
    AddedRule :=
  ⟨.isAfter, ⟨date, precision⟩⟩

/-- Rule registration of the `isSameOrBefore` method in `src/index.js`
(lines 178-183): it registers the rule under the name `isBefore`, so Joi
dispatches its evaluation to `isBefore.validate`. -/
def ijIsSameOrBeforeMethod (date : Option DateArg)
    (precision : Option CalUnit) : AddedRule :=
  ⟨.isBefore, ⟨date, precision⟩⟩

/-- Rule registration of the `isSameOrAfter` method in `src/index.js`
(lines 212-217): it registers the rule under the name `isAfter`. -/
def ijIsSameOrAfterMethod (date : Option DateArg)
    (precision : Option CalUnit) : AddedRule :=
  ⟨.isAfter, ⟨date, precision⟩⟩

/-- Rule registration of the `isBefore` method in `src/unnamed/part_000`
(lines 129-134). -/
def p0IsBeforeMethod (date : Option DateArg) (precision : Option CalUnit) :
    AddedRule :=
  ⟨.isBefore, ⟨date, precision⟩⟩

/-- Rule registration of the `isAfter` method in `src/unnamed/part_000`
(lines 168-173). -/
def p0IsAfterMethod (date : Option DateArg) (precision : Option CalUnit) :
    AddedRule :=
  ⟨.isAfter, ⟨date, precision⟩⟩

/-- Rule registration of the `isSameOrBefore` method in
`src/unnamed/part_000` (lines 207-212): registered under its own name. -/
def p0IsSameOrBeforeMethod (date : Option DateArg)
    (precision : Option CalUnit) : AddedRule :=
  ⟨.isSameOrBefore, ⟨date, precision⟩⟩

/-- Rule registration of the `isSameOrAfter` method in
`src/unnamed/part_000` (lines 246-251). -/
def p0IsSameOrAfterMethod (date : Option DateArg)
    (precision : Option CalUnit) : AddedRule :=
  ⟨.isSameOrAfter, ⟨date, precision⟩⟩

/-- Joi's dispatch of a registered rule to the validate function of the same
name, for the rules of `src/index.js`. -/
def ijEvalRule (parse : JsStr → Mom) (now : Mom) (r : AddedRule) (v : Value) :
    RuleRes :=
  match r.name with
  | .isBefore => ijIsBeforeValidate parse now r.args v
  | .isAfter => ijIsAfterValidate parse now r.args v
  | .isSameOrBefore => ijIsSameOrBeforeValidate parse now r.args v
  | .isSameOrAfter => ijIsSameOrAfterValidate parse now r.args v

/-- Joi's dispatch of a registered rule to the validate function of the same
name, for the rules of `src/unnamed/part_000`. -/
def p0EvalRule (parse : JsStr → Mom) (r : AddedRule) (v : Value) : RuleRes :=
  match r.name with
  | .isBefore => p0IsBeforeValidate parse r.args v
  | .isAfter => p0IsAfterValidate parse r.args v
  | .isSameOrBefore => p0IsSameOrBeforeValidate parse r.args v
  | .isSameOrAfter => p0IsSameOrAfterValidate parse r.args v

/-- Object store for the mutation-sensitive embedding of `part_000` coerce:
moment objects live at numeric addresses; `next` is the next fresh address. -/
structure HeapSt where
  mem : Nat → Mom
  next : Nat

/-- Input of the heap-instrumented coerce: absent, a string, or a pointer to
the caller's moment object. -/
inductive HValue
  | absent
  | str (s : JsStr)
  | addr (a : Nat)
deriving DecidableEq

/-- Result value of the heap-instrumented coerce: the address of the (mutated)
input object, or a direct value when a clamp bound replaced it. -/
inductive HRes
  | addr (a : Nat)
  | val (t : Mom)
deriving DecidableEq

/-- JS truthiness of the heap-instrumented input. -/
def hTruthy : HValue → Bool
  | .absent => false
  | .str s => decide (s ≠ [])
  | .addr _ => true

/-- Read the moment denoted by an intermediate result. -/
def hValOf (h : HeapSt) : HRes → Mom
  | .addr a => h.mem a
  | .val t => t

/-- Write one heap cell. -/
def hWrite (h : HeapSt) (a : Nat) (t : Mom) : HeapSt :=
  ⟨fun b => if b = a then t else h.mem b, h.next⟩

/-- Heap-instrumented embedding of coerce from `src/unnamed/part_000`
(lines 20-78), making the in-place mutations of the moment API explicit: a
string input allocates a fresh moment object; a moment-object input is used
as is (`moment.isMoment(value)` skips the wrap); `value.tz(…)`,
`value.startOf(…)` and `value.endOf(…)` each overwrite the object in place;
the clamp lines only rebind the local variable to the bound. -/
def p0CoerceHeap (parse : JsStr → Mom) (cfg : P0Config) (ctx : Ctx)
    (h0 : HeapSt) (v : HValue) : HeapSt × Option HRes :=
  if hTruthy v = false then (h0, none)
  else
    let ha : HeapSt × Nat :=
      match v with
      | .str s => (⟨fun b => if b = h0.next then parse s else h0.mem b, h0.next + 1⟩, h0.next)
      | .addr a => (h0, a)
      | .absent => (h0, 0)
    let h1 := ha.1
    let a := ha.2
    if (h1.mem a).valid = false then (h1, none)
    else
      let minR := resolveFlag ctx cfg.minDate
      let maxR := resolveFlag ctx cfg.maxDate
      let h2 :=
        match cfg.tz with
        | some z => hWrite h1 a (setTz z (h1.mem a))
        | none =>
            match ctx.timezone with
            | some z => hWrite h1 a (setTz z (h1.mem a))
            | none => h1
      let h3 :=
        match cfg.startOf with
        | some u => hWrite h2 a (startOfU u (h2.mem a))
        | none => h2
      let h4 :=
        match cfg.endOf with
        | some u => hWrite h3 a (endOfU u (h3.mem a))
        | none => h3
      let r1 : HRes := .addr a
      let r2 :=
        match minR with
        | some m0 => if momIsBefore (hValOf h4 r1) m0 .millisecond then HRes.val m0 else r1
        | none => r1
      let r3 :=
        match maxR with
        | some m1 => if momIsAfter (hValOf h4 r2) m1 .millisecond then HRes.val m1 else r2
        | none => r2
      (h4, some r3)

/-- Concrete timestamp 2024-03-15T10:00:00 at offset 0 (UTC). -/
def momMar15 : Mom :=
  ⟨2024, 3, 15, 36000000, 0, true⟩

/-- Concrete timestamp 2024-01-01T00:00:00 UTC. -/
def momJan1 : Mom :=
  ⟨2024, 1, 1, 0, 0, true⟩

/-- Concrete timestamp 2024-06-01T00:00:00 UTC. -/
def momJun1 : Mom :=
  ⟨2024, 6, 1, 0, 0, true⟩

/-- Concrete timestamp 2024-06-01T15:00:00 UTC, same calendar day as
`momJun1`. -/
def momJun1aft : Mom :=
  ⟨2024, 6, 1, 54000000, 0, true⟩

/-- Concrete timestamp 2024-06-02T00:00:00 UTC, the following calendar day. -/
def momJun2 : Mom :=
  ⟨2024, 6, 2, 0, 0, true⟩

/-- Concrete timestamp 2030-01-01T00:00:00 UTC. -/
def mom2030 : Mom :=
  ⟨2030, 1, 1, 0, 0, true⟩

/-- A stand-in for the current time (2024-06-01T12:00:00 UTC), used where
moment falls back to `now`. -/
def momNow : Mom :=
  ⟨2024, 6, 1, 43200000, 0, true⟩

/-- An ambient context with no default timezone and no resolvable refs. -/
def ctxEmpty : Ctx :=
  ⟨none, fun _ => none⟩

/-- An ambient context whose default timezone is offset +120 minutes. -/
def ctxPlus120 : Ctx :=
  ⟨some 120, fun _ => none⟩

/-- An empty part_000 configuration (no flags set). -/
def cfgP0empty : P0Config :=
  ⟨none, none, none, none, none⟩

/-- An empty index.js configuration (no flags set). -/
def ijCfgEmpty : IJConfig :=
  ⟨none, none, none, none, none⟩

/-- The characters of the string "2024-01-01". -/
def jan1str : JsStr :=
  ['2', '0', '2', '4', '-', '0', '1', '-', '0', '1']

/-- The characters of the string "2024-06-01". -/
def jun1str : JsStr :=
  ['2', '0', '2', '4', '-', '0', '6', '-', '0', '1']

/-- The characters of the string "not-a-date". -/
def notADateStr : JsStr :=
  ['n', 'o', 't', '-', 'a', '-', 'd', 'a', 't', 'e']


/-- A part_000 configuration with startOf day and endOf month. -/
def cfgP0se : P0Config :=
  ⟨none, some .day, some .month, none, none⟩

/-- An index.js configuration with startOf day and endOf month. -/
def ijCfgSE : IJConfig :=
  ⟨none, some .day, some .month, none, none⟩

/-- A part_000 configuration with an explicit timezone of +60 minutes. -/
def cfgP0tz : P0Config :=
  ⟨some 60, none, none, none, none⟩

/-- A part_000 configuration with timezone +60 and startOf day. -/
def cfgP0tzDay : P0Config :=
  ⟨some 60, some .day, none, none, none⟩

/-- A concrete heap whose every cell holds `momMar15`. -/
def heapA : HeapSt :=
  ⟨fun _ => momMar15, 5⟩

theorem dim_pos (y m : Int) : 1 ≤ dim y m := by
  simp only [dim]; split_ifs <;> omega

set_option maxHeartbeats 1000000 in
theorem prevDayCiv_ok (t : Mom) (h : CivWF t) :
    CivWF (prevDayCiv t) ∧ dayNum (prevDayCiv t) = dayNum t - 1 ∧
      (prevDayCiv t).msd = t.msd ∧ (prevDayCiv t).off = t.off ∧
      (prevDayCiv t).valid = t.valid := by
  obtain ⟨y, m, d, msd, off, vl⟩ := t
  simp only [CivWF, dayNum, prevDayCiv, daysFromCivil, dim, isLeap] at h ⊢
  split_ifs at h ⊢ <;> simp_all <;> omega

set_option maxHeartbeats 1000000 in
theorem nextDayCiv_ok (t : Mom) (h : CivWF t) :
    CivWF (nextDayCiv t) ∧ dayNum (nextDayCiv t) = dayNum t + 1 ∧
      (nextDayCiv t).msd = t.msd ∧ (nextDayCiv t).off = t.off ∧
      (nextDayCiv t).valid = t.valid := by
  obtain ⟨y, m, d, msd, off, vl⟩ := t
  simp only [CivWF, dayNum, nextDayCiv, daysFromCivil, dim, isLeap] at h ⊢
  split_ifs at h ⊢ <;> simp_all <;> omega

theorem prevDays_ok (n : Nat) (t : Mom) (h : CivWF t) :
    CivWF (prevDays n t) ∧ dayNum (prevDays n t) = dayNum t - n ∧
      (prevDays n t).msd = t.msd ∧ (prevDays n t).off = t.off ∧
      (prevDays n t).valid = t.valid := by
  induction n with
  | zero => exact ⟨h, by simp [prevDays], rfl, rfl, rfl⟩
  | succ k ih =>
      obtain ⟨w, e, e1, e2, e3⟩ := ih
      obtain ⟨w', f, f1, f2, f3⟩ := prevDayCiv_ok (prevDays k t) w
      refine ⟨w', ?_, ?_, ?_, ?_⟩ <;> simp only [prevDays]
      · rw [f, e]; push_cast; ring
      · rw [f1, e1]
      · rw [f2, e2]
      · rw [f3, e3]

theorem nextDays_ok (n : Nat) (t : Mom) (h : CivWF t) :
    CivWF (nextDays n t) ∧ dayNum (nextDays n t) = dayNum t + n ∧
      (nextDays n t).msd = t.msd ∧ (nextDays n t).off = t.off ∧
      (nextDays n t).valid = t.valid := by
  induction n with
  | zero => exact ⟨h, by simp [nextDays], rfl, rfl, rfl⟩
  | succ k ih =>
      obtain ⟨w, e, e1, e2, e3⟩ := ih
      obtain ⟨w', f, f1, f2, f3⟩ := nextDayCiv_ok (nextDays k t) w
      refine ⟨w', ?_, ?_, ?_, ?_⟩ <;> simp only [nextDays]
      · rw [f, e]; push_cast; ring
      · rw [f1, e1]
      · rw [f2, e2]
      · rw [f3, e3]

theorem shiftDays_ok (k : Int) (t : Mom) (h : CivWF t) :
    CivWF (shiftDays k t) ∧ dayNum (shiftDays k t) = dayNum t + k ∧
      (shiftDays k t).msd = t.msd ∧ (shiftDays k t).off = t.off ∧
      (shiftDays k t).valid = t.valid := by
  simp only [shiftDays]
  split_ifs with hk
  · obtain ⟨w, e, e1, e2, e3⟩ := nextDays_ok k.toNat t h
    exact ⟨w, by rw [e, Int.toNat_of_nonneg hk], e1, e2, e3⟩
  · obtain ⟨w, e, e1, e2, e3⟩ := prevDays_ok (-k).toNat t h
    refine ⟨w, ?_, e1, e2, e3⟩
    rw [e, Int.toNat_of_nonneg (by omega)]
    ring

theorem setTz_ok (z : Int) (t : Mom) (h : CivWF t) :
    instant (setTz z t) = instant t ∧ (setTz z t).off = z ∧
      (setTz z t).valid = t.valid ∧ CivWF (setTz z t) := by
  obtain ⟨w, e, e1, e2, e3⟩ :=
    shiftDays_ok ((t.msd + (z - t.off) * 60000) / 86400000) t h
  have hm : dayNum (setTz z t) =
      dayNum (shiftDays ((t.msd + (z - t.off) * 60000) / 86400000) t) := rfl
  constructor
  · simp only [instant, setTz] at *
    omega
  refine ⟨rfl, by simp only [setTz]; exact e3, ?_⟩
  obtain ⟨c1, c2, c3, c4, _, _⟩ := w
  simp only [setTz, CivWF] at c4 ⊢
  refine ⟨c1, c2, c3, c4, by omega, by omega⟩

-- same month, increasing day
theorem dfc_d_mono (y m d1 d2 : Int) (h : d1 ≤ d2) :
    daysFromCivil y m d1 ≤ daysFromCivil y m d2 := by
  simp only [daysFromCivil]
  split_ifs <;> omega

-- month boundary step, from nextDayCiv_ok
theorem dfc_month_step (y m : Int) (h1 : 1 ≤ m) (h2 : m ≤ 11) :
    daysFromCivil y (m + 1) 1 = daysFromCivil y m (dim y m) + 1 := by
  have hwf : CivWF (⟨y, m, dim y m, 0, 0, true⟩ : Mom) := by
    simp only [CivWF]
    exact ⟨h1, by omega, dim_pos y m, le_refl _, by omega, by omega⟩
  have h := nextDayCiv_ok ⟨y, m, dim y m, 0, 0, true⟩ hwf
  have hn : nextDayCiv ⟨y, m, dim y m, 0, 0, true⟩ = ⟨y, m + 1, 1, 0, 0, true⟩ := by
    simp only [nextDayCiv]
    split_ifs <;> first | omega | rfl
  rw [hn] at h
  simpa [dayNum] using h.2.1

theorem dfc_year_step (y : Int) :
    daysFromCivil (y + 1) 1 1 = daysFromCivil y 12 31 + 1 := by
  have hwf : CivWF (⟨y, 12, 31, 0, 0, true⟩ : Mom) := by
    simp only [CivWF, dim]
    norm_num
  have h := nextDayCiv_ok ⟨y, 12, 31, 0, 0, true⟩ hwf
  have hn : nextDayCiv ⟨y, 12, 31, 0, 0, true⟩ = ⟨y + 1, 1, 1, 0, 0, true⟩ := by
    simp only [nextDayCiv, dim]
    norm_num
  rw [hn] at h
  simpa [dayNum] using h.2.1

-- start of a later month in the same year is strictly later
theorem dfc_month_start_mono (y : Int) (k : Nat) :
    ∀ m : Int, 1 ≤ m → m + k ≤ 12 →
      daysFromCivil y m 1 ≤ daysFromCivil y (m + k) 1 := by
  induction k with
  | zero => intro m _ _; simp
  | succ j ih =>
      intro m h1 h2
      have step : daysFromCivil y (m + 1) 1 = daysFromCivil y m (dim y m) + 1 :=
        dfc_month_step y m h1 (by omega)
      have base : daysFromCivil y m 1 ≤ daysFromCivil y m (dim y m) :=
        dfc_d_mono y m 1 (dim y m) (dim_pos y m)
      have rest : daysFromCivil y (m + 1) 1 ≤ daysFromCivil y (m + 1 + j) 1 :=
        ih (m + 1) (by omega) (by push_cast at h2 ⊢; omega)
      have : (m + 1 + (j : Int)) = m + (j + 1 : Nat) := by push_cast; ring
      rw [this] at rest
      omega

-- within one year, civil order implies day-number order
theorem dfc_mono_in_year (y m1 d1 m2 d2 : Int)
    (a1 : 1 ≤ m1) (a3 : 1 ≤ d1) (a4 : d1 ≤ dim y m1)
    (b2 : m2 ≤ 12) (b3 : 1 ≤ d2)
    (hlt : m1 < m2 ∨ (m1 = m2 ∧ d1 < d2)) :
    daysFromCivil y m1 d1 < daysFromCivil y m2 d2 := by
  rcases hlt with hm | ⟨hm, hd⟩
  · have e1 : daysFromCivil y m1 d1 ≤ daysFromCivil y m1 (dim y m1) :=
      dfc_d_mono y m1 d1 (dim y m1) a4
    have e2 : daysFromCivil y (m1 + 1) 1 = daysFromCivil y m1 (dim y m1) + 1 :=
      dfc_month_step y m1 a1 (by omega)
    have e3 : daysFromCivil y (m1 + 1) 1 ≤ daysFromCivil y m2 1 := by
      have := dfc_month_start_mono y (m2 - (m1 + 1)).toNat (m1 + 1) (by omega)
        (by rw [Int.toNat_of_nonneg (by omega)]; omega)
      rwa [Int.toNat_of_nonneg (by omega),
        show m1 + 1 + (m2 - (m1 + 1)) = m2 by ring] at this
    have e4 : daysFromCivil y m2 1 ≤ daysFromCivil y m2 d2 :=
      dfc_d_mono y m2 1 d2 b3
    omega
  · subst hm
    have := dfc_d_mono y m1 (d1 + 1) d2 (by omega)
    have aff : daysFromCivil y m1 d1 < daysFromCivil y m1 (d1 + 1) := by
      simp only [daysFromCivil]; split_ifs <;> omega
    omega

theorem dfc_year_start_mono (k : Nat) :
    ∀ y : Int, daysFromCivil y 1 1 ≤ daysFromCivil (y + k) 1 1 := by
  induction k with
  | zero => intro y; simp
  | succ j ih =>
      intro y
      have s1 : daysFromCivil y 1 1 ≤ daysFromCivil y 12 1 :=
        dfc_month_start_mono y 11 1 (by omega) (by omega)
      have s2 : daysFromCivil y 12 1 ≤ daysFromCivil y 12 31 :=
        dfc_d_mono y 12 1 31 (by omega)
      have s3 : daysFromCivil (y + 1) 1 1 = daysFromCivil y 12 31 + 1 :=
        dfc_year_step y
      have s4 : daysFromCivil (y + 1) 1 1 ≤ daysFromCivil (y + 1 + j) 1 1 := ih (y + 1)
      have : (y + 1 + (j : Int)) = y + (j + 1 : Nat) := by push_cast; ring
      rw [this] at s4
      omega

-- any well-formed date is at most Dec 31 of its year
theorem dfc_le_year_end (y m d : Int) (h1 : 1 ≤ m) (h2 : m ≤ 12) (h3 : 1 ≤ d)
    (h4 : d ≤ dim y m) : daysFromCivil y m d ≤ daysFromCivil y 12 31 := by
  rcases eq_or_lt_of_le h2 with hm | hm
  · subst hm
    have : dim y 12 = 31 := by simp [dim]
    exact dfc_d_mono y 12 d 31 (by omega)
  · exact le_of_lt (dfc_mono_in_year y m d 12 31 h1 h3 h4 (by omega) (by omega) (Or.inl hm))

-- Jan 1 of a year is at most any well-formed date of that year
theorem dfc_year_start_le (y m d : Int) (h1 : 1 ≤ m) (h2 : m ≤ 12) (h3 : 1 ≤ d) :
    daysFromCivil y 1 1 ≤ daysFromCivil y m d := by
  have s1 : daysFromCivil y 1 1 ≤ daysFromCivil y m 1 := by
    have := dfc_month_start_mono y (m - 1).toNat 1 (by omega)
      (by rw [Int.toNat_of_nonneg (by omega)]; omega)
    rwa [Int.toNat_of_nonneg (by omega), show 1 + (m - 1) = m by ring] at this
  have s2 : daysFromCivil y m 1 ≤ daysFromCivil y m d := dfc_d_mono y m 1 d h3
  omega

theorem dayNum_lt_of_civil_lt (a b : Mom) (ha : CivWF a) (hb : CivWF b)
    (hlt : a.y < b.y ∨ (a.y = b.y ∧ a.m < b.m) ∨ (a.y = b.y ∧ a.m = b.m ∧ a.d < b.d)) :
    dayNum a < dayNum b := by
  obtain ⟨a1, a2, a3, a4, -, -⟩ := ha
  obtain ⟨b1, b2, b3, b4, -, -⟩ := hb
  simp only [dayNum]
  rcases hlt with hy | ⟨hy, hm⟩ | ⟨hy, hm, hd⟩
  · have e1 : daysFromCivil a.y a.m a.d ≤ daysFromCivil a.y 12 31 :=
      dfc_le_year_end a.y a.m a.d a1 a2 a3 a4
    have e2 : daysFromCivil (a.y + 1) 1 1 = daysFromCivil a.y 12 31 + 1 :=
      dfc_year_step a.y
    have e3 : daysFromCivil (a.y + 1) 1 1 ≤ daysFromCivil b.y 1 1 := by
      have := dfc_year_start_mono (b.y - (a.y + 1)).toNat (a.y + 1)
      rwa [Int.toNat_of_nonneg (by omega), show a.y + 1 + (b.y - (a.y + 1)) = b.y by ring]
        at this
    have e4 : daysFromCivil b.y 1 1 ≤ daysFromCivil b.y b.m b.d :=
      dfc_year_start_le b.y b.m b.d b1 b2 b3
    omega
  · rw [hy]
    exact dfc_mono_in_year b.y a.m a.d b.m b.d a1 a3 (hy ▸ a4) b2 b3 (Or.inl hm)
  · rw [hy]
    exact dfc_mono_in_year b.y a.m a.d b.m b.d a1 a3 (hy ▸ a4) b2 b3 (Or.inr ⟨hm, hd⟩)

theorem dayNum_msd (t : Mom) (x : Int) : dayNum {t with msd := x} = dayNum t := rfl

theorem dow_msd (t : Mom) (x : Int) : dow {t with msd := x} = dow t := rfl

theorem startOfU_idem (u : CalUnit) (t : Mom) (h : CivWF t) :
    startOfU u (startOfU u t) = startOfU u t := by
  cases u
  case week =>
      simp only [startOfU]
      obtain ⟨w, e, -, -, -⟩ := prevDays_ok (dow t).toNat t h
      have hnn : (0 : Int) ≤ dow t := by simp only [dow]; omega
      have hcast : ((dow t).toNat : Int) = dow t := Int.toNat_of_nonneg hnn
      have hdow2 : dow {prevDays (dow t).toNat t with msd := 0} = 0 := by
        rw [dow_msd]
        simp only [dow] at *
        omega
      rw [hdow2]
      simp only [Int.toNat_zero, prevDays]
  all_goals
    obtain ⟨y, m, d, msd, off, vl⟩ := t
    simp only [CivWF] at h
    simp only [startOfU, Mom.mk.injEq, qstart, true_and, and_true] <;> omega

theorem instant_startOf_day (t : Mom) :
    instant (startOfU .day t) = dayNum t * 86400000 - t.off * 60000 := by
  simp only [instant, startOfU, dayNum_msd]
  omega

theorem instant_endOf_day (t : Mom) :
    instant (endOfU .day t) = dayNum t * 86400000 + 86399999 - t.off * 60000 := by
  have h0 : dayNum {t with msd := 86399999} = dayNum t := rfl
  simp only [instant, endOfU, h0]

/-- C1: for the unparseable string "not-a-date" the coerce stage of both
files returns no result at all (the bare `return;`, which makes Joi keep the
raw string), not an invalid timestamp; the validate stage applied to that
kept string throws (its `isValid` call does not exist on strings) instead of
reporting `date.iso`; the single `date.iso` error only arises when validate
receives a moment object carrying the failed parse. -/
theorem c1_unparseable_coerce :
    (parseISOdate notADateStr).valid = false ∧
    p0Coerce parseISOdate cfgP0empty ctxEmpty (.str notADateStr) = none ∧
    ijCoerce parseISOdate ijCfgEmpty ctxEmpty (.str notADateStr) = none ∧
    validateStage (.str notADateStr) = .crash ∧
    validateStage (.mom (parseISOdate notADateStr)) =
      .errDateISO (.mom (parseISOdate notADateStr)) := by
  refine ⟨by decide, by decide, by decide, by decide, by decide⟩

/-- C2: in `src/index.js` the `isSameOrBefore` method registers its rule
under the name `isBefore`, so `isSameOrBefore(X, "day")` is evaluated as a
strict before: a value on the same calendar day as X (here X at midnight,
the value at 15:00 of the same day) yields a `moment.isBefore` error instead
of passing.  In `src/unnamed/part_000` the rule is registered and evaluated
under its own name and behaves as the claim states: it passes any value on
the same calendar day as X (same offset) and rejects any value on a later
calendar day with a `moment.isSameOrBefore` error. -/
theorem c2_isSameOrBefore_day (X Y : Mom) (hX : CivWF X) (hY : CivWF Y)
    (hvX : X.valid = true) (hvY : Y.valid = true) (hoff : Y.off = X.off) :
    (ijIsSameOrBeforeMethod (some (.mom momJun1)) (some .day)).name = .isBefore ∧
    ijEvalRule parseISOdate momNow
        (ijIsSameOrBeforeMethod (some (.mom momJun1)) (some .day))
        (.mom momJun1aft) = .err .isBefore ⟨some momJun1, .day⟩ ∧
    (Y.y = X.y ∧ Y.m = X.m ∧ Y.d = X.d →
      p0EvalRule parseISOdate
          (p0IsSameOrBeforeMethod (some (.mom X)) (some .day)) (.mom Y) =
        .pass (.mom Y)) ∧
    (X.y < Y.y ∨ (X.y = Y.y ∧ X.m < Y.m) ∨ (X.y = Y.y ∧ X.m = Y.m ∧ X.d < Y.d) →
      p0EvalRule parseISOdate
          (p0IsSameOrBeforeMethod (some (.mom X)) (some .day)) (.mom Y) =
        .err .isSameOrBefore ⟨some X, .day⟩) := by
  have hs1 : 0 ≤ X.msd := hX.2.2.2.2.1
  have hs2 : X.msd ≤ 86399999 := hX.2.2.2.2.2
  refine ⟨by decide, by decide, ?_, ?_⟩
  · intro hsame
    have hdn : dayNum Y = dayNum X := by
      simp only [dayNum, hsame.1, hsame.2.1, hsame.2.2]
    have hcomp : momIsSameOrBefore Y X .day = true := by
      simp only [momIsSameOrBefore, momIsSame, momIsBefore, hvX, hvY,
        Bool.true_and, Bool.or_eq_true, Bool.and_eq_true, decide_eq_true_eq]
      left
      rw [instant_startOf_day, instant_endOf_day]
      simp only [instant]
      omega
    simp only [p0EvalRule, p0IsSameOrBeforeMethod, p0IsSameOrBeforeValidate,
      dateTruthy, precDefault, Option.getD, resolveDateArg]
    simp [hcomp]
  · intro hlt
    have hdn : dayNum X < dayNum Y := dayNum_lt_of_civil_lt X Y
      (by exact ⟨hX.1, hX.2.1, hX.2.2.1, hX.2.2.2.1, hs1, hs2⟩) hY hlt
    have hnot : ¬ (momIsSameOrBefore Y X .day = true) := by
      simp only [momIsSameOrBefore, momIsSame, momIsBefore, hvX, hvY,
        Bool.true_and, Bool.or_eq_true, Bool.and_eq_true, decide_eq_true_eq]
      rw [instant_startOf_day, instant_endOf_day]
      simp only [instant]
      omega
    simp only [p0EvalRule, p0IsSameOrBeforeMethod, p0IsSameOrBeforeValidate,
      dateTruthy, precDefault, Option.getD, resolveDateArg]
    simp [hnot]

/-- C3: the clamp stage keeps the value within the configured bounds and
leaves a value already inside the bounds untouched. -/
theorem c3_clamp_bounds (mn mx v : Mom) (hv : v.valid = true)
    (hmn : mn.valid = true) (hmx : mx.valid = true)
    (hle : instant mn ≤ instant mx) :
    instant mn ≤ instant (clampStage (some mn) (some mx) v) ∧
      instant (clampStage (some mn) (some mx) v) ≤ instant mx ∧
      (instant mn ≤ instant v → instant v ≤ instant mx →
        clampStage (some mn) (some mx) v = v) := by
  have hB : (momIsBefore v mn .millisecond = true) ↔ instant v < instant mn := by
    simp [momIsBefore, hv, hmn]
  have hA : ∀ w : Mom, w.valid = true →
      ((momIsAfter w mx .millisecond = true) ↔ instant mx < instant w) := by
    intro w hw
    simp [momIsAfter, hw, hmx]
  simp only [clampStage]
  by_cases h1 : instant v < instant mn
  · rw [if_pos (hB.mpr h1)]
    have hno : ¬ (momIsAfter mn mx .millisecond = true) := by
      rw [hA mn hmn]
      omega
    rw [if_neg hno]
    refine ⟨le_refl _, hle, ?_⟩
    intro g1 _
    exact absurd g1 (not_le.mpr h1)
  · rw [if_neg (fun hc => h1 (hB.mp hc))]
    by_cases h2 : instant mx < instant v
    · rw [if_pos ((hA v hv).mpr h2)]
      refine ⟨hle, le_refl _, ?_⟩
      intro _ g2
      exact absurd g2 (not_le.mpr h2)
    · rw [if_neg (fun hc => h2 ((hA v hv).mp hc))]
      exact ⟨by omega, by omega, fun _ _ => rfl⟩

/-- C2 witness: part_000's isSameOrBefore at day precision passes the
same-day 15:00 value and rejects the next-day value. -/
theorem c2_isSameOrBefore_day_witness :
    CivWF momJun1 ∧ CivWF momJun1aft ∧ CivWF momJun2 ∧
    p0EvalRule parseISOdate
        (p0IsSameOrBeforeMethod (some (.mom momJun1)) (some .day))
        (.mom momJun1aft) = .pass (.mom momJun1aft) ∧
    p0EvalRule parseISOdate
        (p0IsSameOrBeforeMethod (some (.mom momJun1)) (some .day))
        (.mom momJun2) = .err .isSameOrBefore ⟨some momJun1, .day⟩ := by
  refine ⟨by decide, by decide, by decide, ?_, ?_⟩
  · exact (c2_isSameOrBefore_day momJun1 momJun1aft (by decide) (by decide)
      rfl rfl rfl).2.2.1 ⟨rfl, rfl, rfl⟩
  · exact (c2_isSameOrBefore_day momJun1 momJun2 (by decide) (by decide)
      rfl rfl rfl).2.2.2 (Or.inr (Or.inr ⟨rfl, rfl, by decide⟩))

/-- C3 witness: concrete bounds January to June 2024 around the March
value. -/
theorem c3_clamp_bounds_witness :
    momMar15.valid = true ∧ momJan1.valid = true ∧ momJun1.valid = true ∧
      instant momJan1 ≤ instant momJun1 ∧
      instant momJan1 ≤ instant (clampStage (some momJan1) (some momJun1) momMar15) ∧
      instant (clampStage (some momJan1) (some momJun1) momMar15) ≤ instant momJun1 ∧
      clampStage (some momJan1) (some momJun1) momMar15 = momMar15 := by
  have h := c3_clamp_bounds momJan1 momJun1 momMar15 rfl rfl rfl (by decide)
  exact ⟨rfl, rfl, rfl, by decide, h.1, h.2.1, h.2.2 (by decide) (by decide)⟩

/-- C4: the startOf truncation is idempotent for every unit on every valid
well-formed timestamp. -/
theorem c4_startOf_idempotent (u : CalUnit) (t : Mom) (hv : t.valid = true)
    (h : CivWF t) : startOfU u (startOfU u t) = startOfU u t :=
  startOfU_idem u t h

/-- C4 witness: the week unit at the concrete timestamp momMar15. -/
theorem c4_startOf_idempotent_witness :
    momMar15.valid = true ∧ CivWF momMar15 ∧
      startOfU .week (startOfU .week momMar15) = startOfU .week momMar15 :=
  ⟨rfl, by decide, c4_startOf_idempotent .week momMar15 rfl (by decide)⟩

/-- C5: with both startOf and endOf configured, the rounding step of coerce
applies startOf first and endOf second, so the coerced value is the end
boundary of endOf's unit computed on the startOf-truncated (and
timezone-adjusted) value, in both variants. -/
theorem c5_round_order (cfgP : P0Config) (cfgI : IJConfig) (ctx : Ctx)
    (parse : JsStr → Mom) (u1 u2 : CalUnit) (t : Mom)
    (h1 : cfgP.startOf = some u1) (h2 : cfgP.endOf = some u2)
    (h3 : cfgP.minDate = none) (h4 : cfgP.maxDate = none)
    (h5 : cfgI.startOf = some u1) (h6 : cfgI.endOf = some u2)
    (h7 : cfgI.min = none) (h8 : cfgI.max = none) (hv : t.valid = true) :
    p0Coerce parse cfgP ctx (.mom t) =
      some (endOfU u2 (startOfU u1 (tzStageP0 cfgP ctx t))) ∧
    ijCoerce parse cfgI ctx (.mom t) =
      some (endOfU u2 (startOfU u1 (tzStageIJ cfgI t))) := by
  constructor
  · simp [p0Coerce, truthy, toMomentWrap, hv, h1, h2, h3, h4, roundStage,
      clampStage, resolveFlag]
  · simp [ijCoerce, truthy, toMomentWrap, hv, h5, h6, h7, h8, roundStage,
      clampStage]

/-- C5 witness: startOf day with endOf month on the concrete March value. -/
theorem c5_round_order_witness :
    cfgP0se.startOf = some CalUnit.day ∧ cfgP0se.endOf = some CalUnit.month ∧
      momMar15.valid = true ∧
      p0Coerce parseISOdate cfgP0se ctxEmpty (.mom momMar15) =
        some (endOfU .month (startOfU .day (tzStageP0 cfgP0se ctxEmpty momMar15))) ∧
      ijCoerce parseISOdate ijCfgSE ctxEmpty (.mom momMar15) =
        some (endOfU .month (startOfU .day (tzStageIJ ijCfgSE momMar15))) := by
  have h := c5_round_order cfgP0se ijCfgSE ctxEmpty parseISOdate .day .month
    momMar15 rfl rfl rfl rfl rfl rfl rfl rfl rfl
  exact ⟨rfl, rfl, rfl, h.1, h.2⟩

/-- C6 counterexample: in `src/index.js` the context default timezone is
never applied: with no tz flag and a context default of +120 minutes the
coerced value keeps its original offset, so the claimed fallback does not
happen in that variant. -/
theorem c6_ij_ignores_context_default :
    ijCfgEmpty.tz = none ∧ ctxPlus120.timezone = some 120 ∧
    ijCoerce parseISOdate ijCfgEmpty ctxPlus120 (.mom momMar15) = some momMar15 ∧
    ¬ (Option.map Mom.off
        (ijCoerce parseISOdate ijCfgEmpty ctxPlus120 (.mom momMar15)) =
          some 120) := by
  refine ⟨rfl, rfl, by decide, by decide⟩

/-- C6 (amended to the part_000 variant, where the fallback exists): when
the tz flag is set, the display zone is reassigned to it without moving the
underlying instant, whatever the context holds; when no tz flag is set and
the context supplies a default timezone, that default is applied the same
way. -/
theorem c6_timezone_normalize (cfg : P0Config) (ctx : Ctx) (t : Mom)
    (hv : t.valid = true) (h : CivWF t) :
    (∀ z, cfg.tz = some z →
      tzStageP0 cfg ctx t = setTz z t ∧ instant (setTz z t) = instant t ∧
        (setTz z t).off = z) ∧
    (cfg.tz = none → ∀ z, ctx.timezone = some z →
      tzStageP0 cfg ctx t = setTz z t ∧ instant (setTz z t) = instant t) := by
  constructor
  · intro z hz
    obtain ⟨e1, e2, -, -⟩ := setTz_ok z t h
    exact ⟨by simp [tzStageP0, hz], e1, e2⟩
  · intro hz z hctx
    obtain ⟨e1, -, -, -⟩ := setTz_ok z t h
    exact ⟨by simp [tzStageP0, hz, hctx], e1⟩

/-- C6 witness: explicit +60 wins over the +120 context default, and the
default applies when no flag is set; instants are unmoved. -/
theorem c6_timezone_normalize_witness :
    (cfgP0tz.tz = some 60 ∧
      tzStageP0 cfgP0tz ctxPlus120 momMar15 = setTz 60 momMar15 ∧
      instant (setTz 60 momMar15) = instant momMar15 ∧
      (setTz 60 momMar15).off = 60) ∧
    (cfgP0empty.tz = none ∧ ctxPlus120.timezone = some 120 ∧
      tzStageP0 cfgP0empty ctxPlus120 momMar15 = setTz 120 momMar15) := by
  constructor
  · exact ⟨rfl,
      (c6_timezone_normalize cfgP0tz ctxPlus120 momMar15 rfl (by decide)).1 60 rfl⟩
  · exact ⟨rfl, rfl,
      ((c6_timezone_normalize cfgP0empty ctxPlus120 momMar15 rfl
        (by decide)).2 rfl 120 rfl).1⟩

/-- C7: for every falsy input (absent or empty string) both coerce variants
produce no value and the validate stage passes it through with no error,
whatever the configuration. -/
theorem c7_absent_pass (v : Value) (cfgP : P0Config) (cfgI : IJConfig)
    (ctx : Ctx) (parse : JsStr → Mom) (h : truthy v = false) :
    p0Coerce parse cfgP ctx v = none ∧ ijCoerce parse cfgI ctx v = none ∧
      validateStage v = .pass v := by
  refine ⟨?_, ?_, ?_⟩ <;> simp [p0Coerce, ijCoerce, validateStage, h]

/-- C7 witness: the empty string and the absent value. -/
theorem c7_absent_pass_witness :
    truthy (Value.str []) = false ∧ truthy Value.absent = false ∧
      p0Coerce parseISOdate cfgP0empty ctxEmpty (.str []) = none ∧
      ijCoerce parseISOdate ijCfgEmpty ctxEmpty (.str []) = none ∧
      validateStage (.str []) = .pass (.str []) ∧
      p0Coerce parseISOdate cfgP0empty ctxEmpty .absent = none ∧
      validateStage .absent = .pass .absent := by
  have h1 := c7_absent_pass (.str []) cfgP0empty ijCfgEmpty ctxEmpty parseISOdate rfl
  have h2 := c7_absent_pass .absent cfgP0empty ijCfgEmpty ctxEmpty parseISOdate rfl
  exact ⟨rfl, rfl, h1.1, h1.2.1, h1.2.2, h2.1, h2.2.2⟩

/-- C8 counterexample: in `src/index.js` a comparison rule whose date
argument is unset does not pass vacuously: the comparison falls back to the
current time and the rule can produce an error (a 2030 value under isBefore
with an unset date and now in 2024), contradicting the claimed
pass-through. -/
theorem c8_ij_unset_date_errors :
    ijIsBeforeValidate parseISOdate momNow ⟨none, some .day⟩ (.mom mom2030) =
      .err .isBefore ⟨none, .day⟩ ∧
    ¬ (ijIsBeforeValidate parseISOdate momNow ⟨none, some .day⟩ (.mom mom2030) =
        .pass (.mom mom2030)) := by
  refine ⟨by decide, by decide⟩

/-- C8 (amended to the part_000 variant, which has the guard): each of the
four comparison rules passes vacuously, returning the value unchanged with
no error, whenever its date argument is falsy (unset, or a reference that
resolved to nothing). -/
theorem c8_p0_vacuous_pass (parse : JsStr → Mom) (args : RuleArgs) (v : Value)
    (h : dateTruthy args.date = false) :
    p0IsBeforeValidate parse args v = .pass v ∧
      p0IsAfterValidate parse args v = .pass v ∧
      p0IsSameOrBeforeValidate parse args v = .pass v ∧
      p0IsSameOrAfterValidate parse args v = .pass v := by
  refine ⟨?_, ?_, ?_, ?_⟩ <;>
    simp [p0IsBeforeValidate, p0IsAfterValidate, p0IsSameOrBeforeValidate,
      p0IsSameOrAfterValidate, h]

/-- C8 witness: the unset date argument on a concrete moment value. -/
theorem c8_p0_vacuous_pass_witness :
    dateTruthy (none : Option DateArg) = false ∧
      p0IsBeforeValidate parseISOdate ⟨none, some .day⟩ (.mom momMar15) =
        .pass (.mom momMar15) ∧
      p0IsSameOrBeforeValidate parseISOdate ⟨none, some .day⟩ (.mom momMar15) =
        .pass (.mom momMar15) := by
  have h := c8_p0_vacuous_pass parseISOdate ⟨none, some .day⟩ (.mom momMar15) rfl
  exact ⟨rfl, h.1, h.2.2.1⟩

/-- C9: the input "2024-01-01" coerces to the timestamp for that date, and
the rule isAfter("2024-06-01", "day") fails on it with an error of kind
`moment.isAfter` whose interpolation data carries the parsed date 2024-06-01
and the precision day, in both variants. -/
theorem c9_isAfter_scenario :
    parseISOdate jan1str = momJan1 ∧ parseISOdate jun1str = momJun1 ∧
    p0Coerce parseISOdate cfgP0empty ctxEmpty (.str jan1str) = some momJan1 ∧
    p0EvalRule parseISOdate
        (p0IsAfterMethod (some (.str jun1str)) (some .day)) (.mom momJan1) =
      .err .isAfter ⟨some momJun1, .day⟩ ∧
    ijEvalRule parseISOdate momNow
        (ijIsAfterMethod (some (.str jun1str)) (some .day)) (.mom momJan1) =
      .err .isAfter ⟨some momJun1, .day⟩ := by
  refine ⟨by decide, by decide, by decide, by decide, by decide⟩

set_option maxHeartbeats 1000000 in
/-- C10: in the part_000 variant, a moment-object input is not copied: the
timezone and rounding transformations land in the caller's own heap cell, no
allocation happens, and (when no clamp bound replaces the value) the
returned result is the very address that was passed in. -/
theorem c10_inplace_mutation (parse : JsStr → Mom) (cfg : P0Config) (ctx : Ctx)
    (h0 : HeapSt) (a : Nat) (hv : (h0.mem a).valid = true)
    (hmin : ∀ m0, resolveFlag ctx cfg.minDate = some m0 →
      momIsBefore (roundStage cfg.startOf cfg.endOf (tzStageP0 cfg ctx (h0.mem a)))
        m0 .millisecond = false)
    (hmax : ∀ m1, resolveFlag ctx cfg.maxDate = some m1 →
      momIsAfter (roundStage cfg.startOf cfg.endOf (tzStageP0 cfg ctx (h0.mem a)))
        m1 .millisecond = false) :
    (p0CoerceHeap parse cfg ctx h0 (.addr a)).2 = some (.addr a) ∧
    (p0CoerceHeap parse cfg ctx h0 (.addr a)).1.mem a =
      roundStage cfg.startOf cfg.endOf (tzStageP0 cfg ctx (h0.mem a)) ∧
    (p0CoerceHeap parse cfg ctx h0 (.addr a)).1.next = h0.next := by
  obtain ⟨tz, so, eo, mnd, mxd⟩ := cfg
  cases tz <;> cases hct : ctx.timezone <;> cases so <;> cases eo <;>
    cases hmn : resolveFlag ctx mnd <;> cases hmx : resolveFlag ctx mxd <;>
      refine ⟨?_, ?_, ?_⟩ <;>
        simp_all [p0CoerceHeap, hTruthy, hWrite, hValOf, tzStageP0, roundStage]

/-- C10 witness: timezone +60 with startOf day applied to the object at
address 3 of the concrete heap. -/
theorem c10_inplace_mutation_witness :
    (heapA.mem 3).valid = true ∧
    (p0CoerceHeap parseISOdate cfgP0tzDay ctxEmpty heapA (.addr 3)).2 =
      some (.addr 3) ∧
    (p0CoerceHeap parseISOdate cfgP0tzDay ctxEmpty heapA (.addr 3)).1.mem 3 =
      roundStage cfgP0tzDay.startOf cfgP0tzDay.endOf
        (tzStageP0 cfgP0tzDay ctxEmpty (heapA.mem 3)) ∧
    (p0CoerceHeap parseISOdate cfgP0tzDay ctxEmpty heapA (.addr 3)).1.next =
      heapA.next := by
  have h := c10_inplace_mutation parseISOdate cfgP0tzDay ctxEmpty heapA 3 rfl
    (fun m0 hm => Option.noConfusion hm) (fun m1 hm => Option.noConfusion hm)
  exact ⟨rfl, h.1, h.2.1, h.2.2⟩
